import Mathlib

/-!
Verification development for the timeline editor (vanilla-gsap variant).

Shallow embedding conventions:
* A calendar date (stored in the program as a "YYYY-MM-DD" string, and as a
  JavaScript `Date` at midnight UTC in transit) is modelled by its epoch-day
  number (an integer counting days since 1970-01-01); two valid "YYYY-MM-DD"
  strings are equal iff their epoch-day numbers are equal.  `daysFromCivil`
  below is the standard civil-calendar conversion and models parsing a
  concrete "YYYY-MM-DD" literal.
* Item ids, generated by `String(this.nextId++)`, are modelled by the natural
  number behind the decimal string.
* Pixel quantities and the zoom factor are modelled by rationals.
* Each mutating store operation returns, besides its result and the new
  state, the number of times it invoked the change-notification hook
  (`_notifyChange`) during the call.
-/

namespace Timelines

/- The four rational-arithmetic primitives are shipped `@[irreducible]`;
the kernel evaluates them regardless, and restoring default transparency
lets `decide` evaluate concrete pixel arithmetic during elaboration too. -/
attribute [local semireducible] Rat.add Rat.mul Rat.inv Rat.sub

/-- Epoch-day number of a civil date (Howard Hinnant's `days_from_civil`);
models parsing a "YYYY-MM-DD" string into a JS `Date` at midnight UTC,
measured in whole days since 1970-01-01. -/
def daysFromCivil (y m d : ℤ) : ℤ :=
  let y' : ℤ := y - (if m ≤ 2 then 1 else 0)
  let era : ℤ := Int.fdiv y' 400
  let yoe : ℤ := y' - era * 400
  let doy : ℤ := (153 * (m + (if 2 < m then -3 else 9)) + 2) / 5 + d - 1
  let doe : ℤ := yoe * 365 + yoe / 4 - yoe / 100 + doy
  era * 146097 + doe - 719468

/-- Model of JavaScript `Math.round` on an exact rational: round half toward
positive infinity. -/
def jsRound (x : ℚ) : ℤ := (x + 1 / 2).floor

/-- Milliseconds in a day, as used by `getRelativeDayFromDate`. -/
def msPerDay : ℚ := 86400000

/-- A timeline block, as created by `TimelineDataModel.addBlock`
(`data-model.js`).  `startDate` is the epoch-day number of the stored
"YYYY-MM-DD" string. -/
structure Block where
  id : ℕ
  startDate : ℤ
  duration : ℤ
  label : String
  row : ℤ
  badge : String
deriving Repr, DecidableEq

/-- A milestone, called "annotation" in the source
(`TimelineDataModel.addAnnotation`); `date` is the epoch-day number of the
stored "YYYY-MM-DD" string. -/
structure Milestone where
  id : ℕ
  date : ℤ
  row : ℤ
  text : String
deriving Repr, DecidableEq

/-- The store state `TimelineDataModel.data.timeline` together with the
`nextId` counter and the off-timeline block list.  `items` only ever holds
entries of type "block" (annotations live in `annotations`), so the `type`
tag is dropped. -/
structure TimelineData where
  items : List Block
  annotations : List Milestone
  zoom : ℚ
  scrollPosition : ℚ
  startDate : ℤ
  lastBadgeValue : String
  offBlocks : List Block
  nextId : ℕ
deriving Repr, DecidableEq

/-- Fresh store as built by the `TimelineDataModel` constructor on a given
day ("today"). -/
def initialState (today : ℤ) : TimelineData :=
  { items := [], annotations := [], zoom := 1, scrollPosition := 0,
    startDate := today, lastBadgeValue := "XD", offBlocks := [], nextId := 1 }

/-- `getRelativeDayFromDate`: millisecond difference between the date and the
store's start date, divided by a day and rounded (`Math.round`). -/
def getRelativeDayFromDate (st : TimelineData) (date : ℤ) : ℤ :=
  jsRound (((date - st.startDate : ℤ) : ℚ) * msPerDay / msPerDay)

/-- `getDateFromRelativeDay`: start date plus `n` days (JS `setDate`
arithmetic at midnight UTC). -/
def getDateFromRelativeDay (st : TimelineData) (n : ℤ) : ℤ :=
  st.startDate + n

/-- Several store operations accept either a relative day (a JS number) or an
absolute "YYYY-MM-DD" date (a JS string); this sum type mirrors the
`typeof`-dispatch. -/
inductive DayOrDate where
  | day (n : ℤ)
  | date (d : ℤ)
deriving Repr, DecidableEq

/-- The `typeof dayOrDate === 'number'` branch shared by `addBlock`,
`addAnnotation` and `getAnnotation`: a relative day is converted through the
start date, an absolute date is used as given. -/
def resolveDate (st : TimelineData) : DayOrDate → ℤ
  | DayOrDate.day n => st.startDate + n
  | DayOrDate.date d => d

/-- Insert a block into a list sorted by `startDate`, after all entries with
a strictly smaller or equal date (stability). -/
def insertBlock (b : Block) : List Block → List Block
  | [] => [b]
  | x :: xs => if b.startDate ≤ x.startDate then b :: x :: xs else x :: insertBlock b xs

/-- `sortTimelineItems`: stable sort of the item list by the `startDate`
string (lexicographic `localeCompare` on "YYYY-MM-DD" strings coincides with
epoch-day order).  `Array.prototype.sort` is stable and a stable sort by a
total key order has a unique result, so this insertion sort is extensionally
the JS sort. -/
def sortTimelineItems : List Block → List Block
  | [] => []
  | x :: xs => insertBlock x (sortTimelineItems xs)

/-- `addBlock(startDayOrDate, duration, label, row)`: resolves the date,
builds the block with the last used badge (`|| 'XD'` on the falsy empty
string), appends, re-sorts, notifies once. -/
def addBlock (st : TimelineData) (startDayOrDate : DayOrDate) (duration : ℤ)
    (label : String) (row : ℤ) : Block × TimelineData × ℕ :=
  let startDate := resolveDate st startDayOrDate
  let badge := if st.lastBadgeValue = "" then "XD" else st.lastBadgeValue
  let b : Block := { id := st.nextId, startDate := startDate, duration := duration,
                     label := label, row := row, badge := badge }
  (b, { st with items := sortTimelineItems (st.items ++ [b]), nextId := st.nextId + 1 }, 1)

/-- `addAnnotation(dayOrDate, row, text)` (the spec's `addMilestone`):
resolves the date, appends the milestone unconditionally — the source has no
occupancy check here — and notifies once. -/
def addMilestone (st : TimelineData) (dayOrDate : DayOrDate) (row : ℤ)
    (text : String) : Milestone × TimelineData × ℕ :=
  let date := resolveDate st dayOrDate
  let a : Milestone := { id := st.nextId, date := date, row := row, text := text }
  (a, { st with annotations := st.annotations ++ [a], nextId := st.nextId + 1 }, 1)

/-- `getAnnotation(dayOrDate, row)`: first milestone whose date and row both
match. -/
def getMilestone (st : TimelineData) (dayOrDate : DayOrDate) (row : ℤ) : Option Milestone :=
  let date := resolveDate st dayOrDate
  st.annotations.find? (fun a => a.date = date ∧ a.row = row)

/-- Remove the first list entry with the given id (models
`findIndex` followed by `splice(index, 1)`). -/
def removeFirstBlock (id : ℕ) : List Block → List Block
  | [] => []
  | x :: xs => if x.id = id then xs else x :: removeFirstBlock id xs

/-- Remove the first milestone with the given id. -/
def removeFirstMilestone (id : ℕ) : List Milestone → List Milestone
  | [] => []
  | x :: xs => if x.id = id then xs else x :: removeFirstMilestone id xs

/-- `removeItem(id)`: splice out the first item with this id and notify once;
an unknown id returns `null` without touching the store or notifying. -/
def removeItem (st : TimelineData) (id : ℕ) : Option Block × TimelineData × ℕ :=
  match st.items.find? (fun i => i.id = id) with
  | some b => (some b, { st with items := removeFirstBlock id st.items }, 1)
  | none => (none, st, 0)

/-- `removeAnnotation(id)`: same pattern on the milestone list. -/
def removeMilestone (st : TimelineData) (id : ℕ) : Option Milestone × TimelineData × ℕ :=
  match st.annotations.find? (fun a => a.id = id) with
  | some a => (some a, { st with annotations := removeFirstMilestone id st.annotations }, 1)
  | none => (none, st, 0)

/-- The partial-field update object passed to `updateItem`; `none` models an
absent (undefined) property. -/
structure Updates where
  startDay : Option ℤ
  startDate : Option ℤ
  duration : Option ℤ
  row : Option ℤ
  badge : Option String
  label : Option String
  day : Option ℤ
  date : Option ℤ
  text : Option String
deriving Repr, DecidableEq

/-- An update object with every property absent. -/
def noUpdates : Updates :=
  { startDay := none, startDate := none, duration := none, row := none,
    badge := none, label := none, day := none, date := none, text := none }

/-- `Object.assign` of an update object onto a block, after the
`startDay` → `startDate` migration `updateItem` performs for blocks. -/
def applyUpdatesBlock (st : TimelineData) (b : Block) (u : Updates) : Block :=
  let sd : Option ℤ :=
    match u.startDate, u.startDay with
    | none, some k => some (getDateFromRelativeDay st k)
    | s, _ => s
  { id := b.id,
    startDate := sd.getD b.startDate,
    duration := u.duration.getD b.duration,
    label := u.label.getD b.label,
    row := u.row.getD b.row,
    badge := u.badge.getD b.badge }

/-- `Object.assign` of an update object onto a milestone, after the
`day` → `date` migration. -/
def applyUpdatesMilestone (st : TimelineData) (a : Milestone) (u : Updates) : Milestone :=
  let d : Option ℤ :=
    match u.date, u.day with
    | none, some k => some (getDateFromRelativeDay st k)
    | s, _ => s
  { id := a.id,
    date := d.getD a.date,
    row := u.row.getD a.row,
    text := u.text.getD a.text }

/-- Replace the first block with the given id (models the in-place
`Object.assign` on the object `find` returned). -/
def replaceFirstBlock (id : ℕ) (b' : Block) : List Block → List Block
  | [] => []
  | x :: xs => if x.id = id then b' :: xs else x :: replaceFirstBlock id b' xs

/-- Replace the first milestone with the given id. -/
def replaceFirstMilestone (id : ℕ) (a' : Milestone) : List Milestone → List Milestone
  | [] => []
  | x :: xs => if x.id = id then a' :: xs else x :: replaceFirstMilestone id a' xs

/-- Result of `updateItem`: the updated block or milestone, or `null`. -/
abbrev UpdateResult := Option (Block ⊕ Milestone)

/-- `updateItem(id, updates)`: if the id names an item, migrate legacy
fields, assign, record a badge update in `lastBadgeValue`, re-sort and notify
once; else if it names a milestone, migrate, assign and notify once (no
re-sort); an unknown id is a no-op returning `null`. -/
def updateItem (st : TimelineData) (id : ℕ) (u : Updates) :
    UpdateResult × TimelineData × ℕ :=
  match st.items.find? (fun i => i.id = id) with
  | some b =>
    let b' := applyUpdatesBlock st b u
    let lb := match u.badge with
      | some v => v
      | none => st.lastBadgeValue
    (some (Sum.inl b'),
      { st with items := sortTimelineItems (replaceFirstBlock id b' st.items),
                lastBadgeValue := lb }, 1)
  | none =>
    match st.annotations.find? (fun a => a.id = id) with
    | some a =>
      let a' := applyUpdatesMilestone st a u
      (some (Sum.inr a'),
        { st with annotations := replaceFirstMilestone id a' st.annotations }, 1)
    | none => (none, st, 0)

/-- `reorderItems(draggedId, targetIndex)`: splice the dragged item out and
back in at the target index.  The source neither re-sorts nor calls
`_notifyChange` here. -/
def reorderItems (st : TimelineData) (draggedId : ℕ) (targetIndex : ℕ) :
    TimelineData × ℕ :=
  match st.items.findIdx? (fun i => i.id = draggedId) with
  | some idx =>
    match st.items[idx]? with
    | some item =>
      ({ st with items := (st.items.eraseIdx idx).insertIdx targetIndex item }, 0)
    | none => (st, 0)
  | none => (st, 0)

/-- `getItem(id)`: look among timeline items first, then off-timeline
blocks. -/
def getItem (st : TimelineData) (id : ℕ) : Option Block :=
  (st.items.find? (fun i => i.id = id)).orElse
    (fun _ => st.offBlocks.find? (fun b => b.id = id))

/-! ## Timeline geometry (`timeline.js`)

The `Timeline` instance carries the zoom factor and reads the start date from
the data model; the geometry functions below take both explicitly.  `start`
is the epoch-day number of the timeline's start date. -/

/-- `isWeekend(day)`: day-of-week of `startDate + day` is Sunday (0) or
Saturday (6).  Epoch day 0 (1970-01-01) was a Thursday, so JS `getDay()` of
epoch day `e` is `(e + 4) mod 7` (always in `[0, 7)`). -/
def isWeekend (start day : ℤ) : Bool :=
  ((start + day + 4) % 7 == 0) || ((start + day + 4) % 7 == 6)

/-- `getDayWidth(day)`: 20 px for weekend days, 80 px for weekdays (zoom is
applied by the callers). -/
def getDayWidth (start day : ℤ) : ℚ :=
  if isWeekend start day then 20 else 80

/-- `dayToPixel(day)`: sum of the widths of days `0 .. day-1`, scaled by
zoom.  The JS `for (i = 0; i < day; ...)` loop runs zero times for
non-positive `day`, hence `toNat`. -/
def dayToPixel (start : ℤ) (zoom : ℚ) (day : ℤ) : ℚ :=
  (∑ i in Finset.range day.toNat, getDayWidth start i) * zoom

/-- `dayToPixelForDuration(startDay, duration)`: sum of the widths of the
`duration` columns starting at `startDay`, scaled by zoom. -/
def dayToPixelForDuration (start : ℤ) (zoom : ℚ) (startDay duration : ℤ) : ℚ :=
  (∑ i in Finset.range duration.toNat, getDayWidth start (startDay + i)) * zoom

/-- Model of JavaScript `Math.abs` on an exact rational. -/
def jabs (x : ℚ) : ℚ := if x < 0 then -x else x

/-- The cumulative-width walk of `pixelToDay`.  One call is one iteration of
the `while (true)` loop at accumulated pixels `acc` and day counter `day`;
`fuel` is `10000 - day`, so `fuel = 0` is the iteration whose increment
trips the `day > 10000` safety check: the source then logs
`console.warn('pixelToDay: exceeded safety limit')` and returns the
incremented counter.  The Boolean records whether that warning fired. -/
def pixelToDayGo (start : ℤ) (u : ℚ) : ℕ → ℚ → ℕ → ℕ × Bool
  | fuel, acc, day =>
    let w := getDayWidth start day
    let dayEnd := acc + w
    if jabs (u - acc) < 1 / 1000 then (day, false)
    else if jabs (u - dayEnd) < 1 / 1000 then (day + 1, false)
    else if acc < u ∧ u < dayEnd then (day, false)
    else
      match fuel with
      | 0 => (day + 1, true)
      | f + 1 => pixelToDayGo start u f dayEnd (day + 1)

/-- `pixelToDay(pixel)` together with the warning flag: unzoom the pixel,
then walk cumulative day widths from day 0. -/
def pixelToDayFull (start : ℤ) (zoom : ℚ) (pixel : ℚ) : ℕ × Bool :=
  pixelToDayGo start (pixel / zoom) 10000 0 0

/-- The day `pixelToDay(pixel)` returns to its caller. -/
def pixelToDay (start : ℤ) (zoom : ℚ) (pixel : ℚ) : ℕ :=
  (pixelToDayFull start zoom pixel).1

/-- Whether `pixelToDay(pixel)` hit the safety cap and logged the warning. -/
def pixelToDayWarned (start : ℤ) (zoom : ℚ) (pixel : ℚ) : Bool :=
  (pixelToDayFull start zoom pixel).2

/-- Unzoomed cumulative width of days `0 .. d-1` (proof-side abbreviation for
the sums appearing in `dayToPixel` and `pixelToDayGo`). -/
def cumWidth (start : ℤ) (d : ℕ) : ℚ :=
  ∑ i in Finset.range d, getDayWidth start i

/-! ## Resize with push (`resize.js`) -/

/-- `findBlocksToRight(resizedBlock, timeline)`: every other block in the
resized block's row whose relative start day is at or after the resized
block's pre-resize right edge, paired with that captured relative day
(`initialRelativeDay` in the source; the visual `initialLeft` only feeds the
transient preview and is dropped). -/
def findBlocksToRight (st : TimelineData) (b : Block) : List (ℕ × ℤ) :=
  let resizedRelativeDay := getRelativeDayFromDate st b.startDate
  let resizedRightEdge := resizedRelativeDay + b.duration
  (st.items.filter
      (fun x => x.id ≠ b.id ∧ x.row = b.row ∧
        resizedRightEdge ≤ getRelativeDayFromDate st x.startDate)).map
    (fun x => (x.id, getRelativeDayFromDate st x.startDate))

/-- The quantities a resize gesture on block `b` computes: the captured
state of `startResize` plus the day arithmetic of `handleResizeEnd` for a
final pointer travel of `deltaX` pixels.  The rendered geometry of the block
(`block.js`) gives `initialLeft = dayToPixel(relativeDay)` and
`initialWidth = dayToPixelForDuration(relativeDay, duration)`. -/
structure ResizeCalc where
  initialRelativeDay : ℤ
  initialLeft : ℚ
  initialWidth : ℚ
  minWidth : ℚ
  newWidth : ℚ
  endDay : ℤ
  snappedDuration : ℤ
  deltaDays : ℤ
  blocksToPush : List (ℕ × ℤ)

/-- The day arithmetic of `startResize` + `handleResizeEnd`. -/
def resizeCalc (st : TimelineData) (zoom : ℚ) (b : Block) (deltaX : ℚ) : ResizeCalc :=
  let initialRelativeDay := getRelativeDayFromDate st b.startDate
  let initialLeft := dayToPixel st.startDate zoom initialRelativeDay
  let initialWidth := dayToPixelForDuration st.startDate zoom initialRelativeDay b.duration
  let blocksToPush := findBlocksToRight st b
  let minWidth := dayToPixelForDuration st.startDate zoom initialRelativeDay 1
  let newWidth := max minWidth (initialWidth + deltaX)
  let endDay : ℤ := pixelToDay st.startDate zoom (initialLeft + newWidth)
  let snappedDuration := max 1 (endDay - initialRelativeDay)
  { initialRelativeDay := initialRelativeDay, initialLeft := initialLeft,
    initialWidth := initialWidth, minWidth := minWidth, newWidth := newWidth,
    endDay := endDay, snappedDuration := snappedDuration,
    deltaDays := snappedDuration - b.duration, blocksToPush := blocksToPush }

/-- `handleResizeEnd`'s `blocksToPush.forEach` loop: shift each captured
pushed block to its captured `initialRelativeDay` plus `deltaDays`, each
through `updateItem`. -/
def pushCommit (deltaDays : ℤ) (blocksToPush : List (ℕ × ℤ)) (s : TimelineData) :
    TimelineData :=
  blocksToPush.foldl
    (fun s p =>
      (updateItem s p.1
        { noUpdates with
          startDate := some (getDateFromRelativeDay s (p.2 + deltaDays)) }).2.1)
    s

/-- `handleResizeEnd`'s data-model commits: write the snapped duration to
the resized block, then shift every captured pushed block. -/
def resizeGesture (st : TimelineData) (zoom : ℚ) (b : Block) (deltaX : ℚ) : TimelineData :=
  let c := resizeCalc st zoom b deltaX
  pushCommit c.deltaDays c.blocksToPush
    ((updateItem st b.id { noUpdates with duration := some c.snappedDuration }).2.1)

/-! ## UI paths (`timeline.js`) -/

/-- The hover-affordance creation path (`setupAnnotationHover`): the create
affordance is shown only when `getAnnotation` finds nothing at the resolved
intersection, and only a click on the affordance calls `addAnnotation`; so
creation at an occupied intersection never fires through this path. -/
def hoverCreateMilestone (st : TimelineData) (day : ℤ) (row : ℤ) : TimelineData :=
  if (getMilestone st (DayOrDate.day day) row).isSome then st
  else (addMilestone st (DayOrDate.day day) row "").2.1

/-- `moveSelectedItem`, block branch: clamp the new relative day and row at
0 and commit through `updateItem`. -/
def moveSelectedBlock (st : TimelineData) (selId : ℕ) (deltaDays deltaRow : ℤ) : TimelineData :=
  match getItem st selId with
  | some b =>
    let relativeDay := getRelativeDayFromDate st b.startDate
    let newRelativeDay := max 0 (relativeDay + deltaDays)
    let newDate := getDateFromRelativeDay st newRelativeDay
    let newRow := max 0 (b.row + deltaRow)
    (updateItem st b.id { noUpdates with startDate := some newDate, row := some newRow }).2.1
  | none => st

/-- `moveSelectedItem`, milestone branch (taken when no block is selected):
same clamping on the milestone's date and row. -/
def moveSelectedMilestone (st : TimelineData) (selId : ℕ) (deltaDays deltaRow : ℤ) : TimelineData :=
  match st.annotations.find? (fun a => a.id = selId) with
  | some a =>
    let relativeDay := getRelativeDayFromDate st a.date
    let newRelativeDay := max 0 (relativeDay + deltaDays)
    let newDate := getDateFromRelativeDay st newRelativeDay
    let newRow := max 0 (a.row + deltaRow)
    (updateItem st a.id { noUpdates with date := some newDate, row := some newRow }).2.1
  | none => st

/-- `moveSelectedItem(deltaDays, deltaRow)`: dispatch on the current
selection. -/
def moveSelectedItem (st : TimelineData) (selBlockId selMileId : Option ℕ)
    (deltaDays deltaRow : ℤ) : TimelineData :=
  match selBlockId with
  | some id => moveSelectedBlock st id deltaDays deltaRow
  | none =>
    match selMileId with
    | some id => moveSelectedMilestone st id deltaDays deltaRow
    | none => st

/-! ## Persisted-document loading (`fromJSON`)

`fromJSON` assigns `this.data = parsed` first and only then validates and
migrates, inside one `try`; any `TypeError` thrown along the way is caught
and reported as `false`, with `this.data` left at whatever the steps so far
produced.  The raw (pre-validation) document shape is modelled with `Option`
fields for possibly-absent properties. -/

/-- The document's `timeline.startDate` slot: absent or empty (falsy),
present but an unparseable date string (`new Date(s)` invalid, so
`toISOString()` throws), or a valid date. -/
inductive RawDate where
  | missing
  | invalid
  | valid (d : ℤ)
deriving Repr, DecidableEq

/-- A raw item entry of a persisted document.  `idNum` is the value
`parseInt(item.id) || 0` yields for the id string. -/
structure RawItem where
  itemType : String
  idNum : ℤ
  row : Option ℤ
  startDay : Option ℤ
  startDate : Option ℤ
  badge : Option String
deriving Repr, DecidableEq

/-- A raw milestone entry of a persisted document. -/
structure RawMilestone where
  idNum : ℤ
  day : Option ℤ
  date : Option ℤ
deriving Repr, DecidableEq

/-- The raw `timeline` sub-object. -/
structure RawTimelineDoc where
  items : Option (List RawItem)
  annotations : Option (List RawMilestone)
  startDate : RawDate
  lastBadgeValue : Option String
deriving Repr, DecidableEq

/-- The raw `offTimeline` sub-object. -/
structure RawOffDoc where
  blocks : Option (List RawItem)
deriving Repr, DecidableEq

/-- A parsed persisted document (the result of a successful
`JSON.parse`). -/
structure RawDoc where
  timeline : Option RawTimelineDoc
  offTimeline : Option RawOffDoc
deriving Repr, DecidableEq

/-- The store as `fromJSON` sees it: the raw `this.data` plus `nextId`. -/
structure JsonStore where
  data : RawDoc
  nextId : ℤ
deriving Repr, DecidableEq

/-- The steps of `fromJSON` after the start date has been normalized to the
epoch day `sd`: block migration (default row, `startDay` → `startDate`,
default badge), `lastBadgeValue` default, milestone migration, and the
max-id scan that reseeds `nextId`.  Each early `(false, _)` return is a
thrown `TypeError` (property access or spread on `undefined`) landing in the
`catch`, with `this.data` keeping all mutations made so far. -/
def fromJSONMigrated (st : JsonStore) (p : RawDoc) (tl : RawTimelineDoc) (sd : ℤ) :
    Bool × JsonStore :=
  let tl1 := { tl with startDate := RawDate.valid sd }
  match tl1.items with
  | none => (false, { data := { p with timeline := some tl1 }, nextId := st.nextId })
  | some its =>
    let defBadge := match tl1.lastBadgeValue with
      | none => "XD"
      | some s => if s = "" then "XD" else s
    let its1 := its.map (fun it =>
      if it.itemType = "block" then
        { it with
          row := some (it.row.getD 0),
          startDate := match it.startDate, it.startDay with
            | none, some k => some (sd + k)
            | s, _ => s,
          badge := some (it.badge.getD defBadge) }
      else it)
    let anns1 := (tl1.annotations.getD []).map (fun a =>
      match a.date, a.day with
      | none, some k => { a with date := some (sd + k) }
      | _, _ => a)
    let tl2 := { tl1 with
      items := some its1
      lastBadgeValue := some defBadge
      annotations := some anns1 }
    let doc2 := { p with timeline := some tl2 }
    match p.offTimeline with
    | none => (false, { data := doc2, nextId := st.nextId })
    | some off =>
      match off.blocks with
      | none => (false, { data := doc2, nextId := st.nextId })
      | some offb =>
        let ids := its1.map RawItem.idNum ++ anns1.map RawMilestone.idNum ++
          offb.map RawItem.idNum
        let maxId := ids.foldl (fun m i => max m i) 0
        (true, { data := doc2, nextId := maxId + 1 })

/-- `fromJSON(json)`.  `input = none` models a `JSON.parse` throw (the
`this.data = parsed` assignment never runs); `some p` is a successful parse,
after which `this.data` is replaced by `p` before any validation.  `today`
is the default used for a missing start date. -/
def fromJSON (st : JsonStore) (today : ℤ) (input : Option RawDoc) : Bool × JsonStore :=
  match input with
  | none => (false, st)
  | some p =>
    match p.timeline with
    | none => (false, { data := p, nextId := st.nextId })
    | some tl =>
      match tl.startDate with
      | RawDate.invalid => (false, { data := p, nextId := st.nextId })
      | RawDate.missing => fromJSONMigrated st p tl today
      | RawDate.valid d => fromJSONMigrated st p tl d

/-! ## Stated properties and concrete stores -/

/-- The sort invariant: blocks non-decreasingly ordered by `startDate`. -/
def SortedByStart (l : List Block) : Prop :=
  l.Pairwise (fun a b => a.startDate ≤ b.startDate)

/-- At most one milestone per distinct `(date, row)` pair. -/
def UniqueMilestonePairs (l : List Milestone) : Prop :=
  l.Pairwise (fun a b => ¬(a.date = b.date ∧ a.row = b.row))

instance : DecidablePred SortedByStart := fun l =>
  inferInstanceAs (Decidable (l.Pairwise _))

instance : DecidablePred UniqueMilestonePairs := fun l =>
  inferInstanceAs (Decidable (l.Pairwise _))

/-- Store holding one milestone at `(2024-01-04, 0)`, for exercising
creation at an occupied intersection. -/
def c1Store : TimelineData :=
  (addMilestone (initialState (daysFromCivil 2024 1 1)) (DayOrDate.day 3) 0 "a").2.1

/-- A store whose two blocks sit in sorted order (2024-01-01 before
2024-01-02). -/
def c2Store : TimelineData :=
  { initialState (daysFromCivil 2024 1 1) with
    items := [{ id := 1, startDate := daysFromCivil 2024 1 1, duration := 5,
                label := "A", row := 0, badge := "XD" },
              { id := 2, startDate := daysFromCivil 2024 1 2, duration := 3,
                label := "B", row := 0, badge := "XD" }],
    nextId := 3 }

/-- A well-formed raw `timeline` sub-object (empty, starting 2024-01-01). -/
def c4GoodTimeline : RawTimelineDoc :=
  { items := some []
    annotations := some []
    startDate := RawDate.valid (daysFromCivil 2024 1 1)
    lastBadgeValue := some "XD" }

/-- A well-formed persisted document (empty timeline starting 2024-01-01). -/
def c4GoodDoc : RawDoc :=
  { timeline := some c4GoodTimeline, offTimeline := some { blocks := some [] } }

/-- A store loaded with the well-formed document. -/
def c4Store : JsonStore := { data := c4GoodDoc, nextId := 7 }

/-- The parse result of the JSON text "\x7b\x7d": an object with neither a
`timeline` nor an `offTimeline` property — parseable but malformed. -/
def c4BadDoc : RawDoc := { timeline := none, offTimeline := none }

/-- Scenario A store: `startDate` 2024-01-01, `zoom` 1, then
`addBlock(0, 5, "Design", 0)` and `addBlock(5, 3, "Build", 0)`. -/
def scenarioAStore : TimelineData :=
  (addBlock ((addBlock (initialState (daysFromCivil 2024 1 1))
      (DayOrDate.day 0) 5 "Design" 0).2.1)
    (DayOrDate.day 5) 3 "Build" 0).2.1

/-- The "Design" block as Scenario A's store holds it. -/
def scenarioADesign : Block :=
  { id := 1, startDate := daysFromCivil 2024 1 1, duration := 5,
    label := "Design", row := 0, badge := "XD" }

/-- The "Build" block as Scenario A's store holds it (2024-01-06). -/
def scenarioABuild : Block :=
  { id := 2, startDate := daysFromCivil 2024 1 6, duration := 3,
    label := "Build", row := 0, badge := "XD" }

/-- A block sitting at relative day 0, row 0 (id 1). -/
def c9Block : Block :=
  { id := 1, startDate := 19723, duration := 5, label := "A", row := 0, badge := "XD" }

/-- Store with one block (id 1) and one milestone (id 5), used to exercise
unknown-id no-ops and the keyboard-nudge clamping. -/
def c9Store : TimelineData :=
  { initialState 19723 with
    items := [c9Block],
    annotations := [{ id := 5, date := 19725, row := 2, text := "m" }],
    nextId := 6 }

/-- The block of `c9Store` after a keyboard nudge of −100 days/−100 rows:
both the relative day and the row clamp at 0. -/
def c9Moved : Block :=
  { id := 1, startDate := 19723, duration := 5, label := "A", row := 0, badge := "XD" }

/-- The milestone held by `c9Store` (relative day 2, row 2). -/
def c9Mile : Milestone := { id := 5, date := 19725, row := 2, text := "m" }

/-- The milestone of `c9Store` after a keyboard nudge of −100 days/−100
rows: date and row clamp at the start date and row 0. -/
def c9MovedM : Milestone := { id := 5, date := 19723, row := 0, text := "m" }

/-! # Helper lemmas -/

theorem msPerDay_ne_zero : msPerDay ≠ 0 := by norm_num [msPerDay]

theorem ratFloor_eq_intFloor (a : ℚ) : a.floor = ⌊a⌋ := by
  rw [Rat.floor_def', ← Rat.floor_def]

theorem jsRound_intCast (k : ℤ) : jsRound (k : ℚ) = k := by
  unfold jsRound
  rw [ratFloor_eq_intFloor,
    show ((k : ℚ) + 1 / 2) = (k : ℚ) + (1 / 2 : ℚ) from rfl, Int.floor_int_add]
  norm_num

theorem getRelativeDayFromDate_eq (st : TimelineData) (d : ℤ) :
    getRelativeDayFromDate st d = d - st.startDate := by
  unfold getRelativeDayFromDate
  rw [mul_div_assoc, div_self msPerDay_ne_zero, mul_one, Int.cast_sub,
    show ((d : ℚ) - (st.startDate : ℚ)) = ((d - st.startDate : ℤ) : ℚ) by push_cast; ring,
    jsRound_intCast]

theorem insertBlock_perm (b : Block) (l : List Block) :
    (insertBlock b l).Perm (b :: l) := by
  induction l with
  | nil => simp [insertBlock]
  | cons x xs ih =>
    unfold insertBlock
    split
    · exact List.Perm.refl _
    · exact (ih.cons x).trans (List.Perm.swap b x xs)

theorem mem_insertBlock {x b : Block} {l : List Block} :
    x ∈ insertBlock b l ↔ x = b ∨ x ∈ l := by
  rw [(insertBlock_perm b l).mem_iff, List.mem_cons]

theorem sortTimelineItems_perm (l : List Block) :
    (sortTimelineItems l).Perm l := by
  induction l with
  | nil => exact List.Perm.refl _
  | cons x xs ih => exact (insertBlock_perm x _).trans (ih.cons x)

theorem mem_sortTimelineItems {x : Block} {l : List Block} :
    x ∈ sortTimelineItems l ↔ x ∈ l :=
  (sortTimelineItems_perm l).mem_iff

theorem insertBlock_sorted {l : List Block} (b : Block) (h : SortedByStart l) :
    SortedByStart (insertBlock b l) := by
  induction l with
  | nil => simp [insertBlock, SortedByStart]
  | cons x xs ih =>
    rcases List.pairwise_cons.mp h with ⟨hx, hxs⟩
    unfold insertBlock
    split
    case isTrue hbx =>
      refine List.pairwise_cons.mpr ⟨?_, h⟩
      intro y hy
      rcases List.mem_cons.mp hy with rfl | hy
      · exact hbx
      · exact le_trans hbx (hx y hy)
    case isFalse hbx =>
      refine List.pairwise_cons.mpr ⟨?_, ih hxs⟩
      intro y hy
      rcases mem_insertBlock.mp hy with rfl | hy
      · exact le_of_not_le hbx
      · exact hx y hy

theorem sortTimelineItems_sorted (l : List Block) :
    SortedByStart (sortTimelineItems l) := by
  induction l with
  | nil => simp [sortTimelineItems, SortedByStart]
  | cons x xs ih => exact insertBlock_sorted x ih

theorem removeFirstBlock_sublist (id : ℕ) (l : List Block) :
    (removeFirstBlock id l).Sublist l := by
  induction l with
  | nil => simp [removeFirstBlock]
  | cons x xs ih =>
    unfold removeFirstBlock
    split
    · exact List.sublist_cons_self x xs
    · exact ih.cons₂ x

theorem removeFirstBlock_sorted {l : List Block} (id : ℕ) (h : SortedByStart l) :
    SortedByStart (removeFirstBlock id l) :=
  List.Pairwise.sublist (removeFirstBlock_sublist id l) h

/-! # Claim theorems -/

/-- C6: `getRelativeDayFromDate` and `getDateFromRelativeDay` are exact
mutual inverses: for every integer `n ≥ 0` (indeed for every integer),
converting a relative day to a date and back is the identity, and converting
a stored date to a relative day and back yields the same date. -/
theorem relativeDay_date_inverses (st : TimelineData) (n d : ℤ) (hn : 0 ≤ n) :
    getRelativeDayFromDate st (getDateFromRelativeDay st n) = n ∧
    getDateFromRelativeDay st (getRelativeDayFromDate st d) = d := by
  rw [getRelativeDayFromDate_eq, getRelativeDayFromDate_eq]
  unfold getDateFromRelativeDay
  omega

/-- Witness for C6 at `startDate` 2024-01-01, `n = 5`, date 2024-01-08. -/
theorem relativeDay_date_inverses_witness :
    (0 : ℤ) ≤ 5 ∧
    (getRelativeDayFromDate (initialState 19723) (getDateFromRelativeDay (initialState 19723) 5) = 5 ∧
     getDateFromRelativeDay (initialState 19723)
       (getRelativeDayFromDate (initialState 19723) 19730) = 19730) :=
  ⟨by norm_num, relativeDay_date_inverses (initialState 19723) 5 19730 (by norm_num)⟩

/-- C1 counterexample: with a milestone already at `(2024-01-04, row 0)`,
calling the store's `addAnnotation` at the same `(date, row)` is NOT
suppressed — the annotations collection changes and now holds two milestones
at that pair. -/
theorem addMilestone_occupied_not_suppressed :
    (getMilestone c1Store (DayOrDate.day 3) 0).isSome = true ∧
    (addMilestone c1Store (DayOrDate.day 3) 0 "b").2.1.annotations ≠ c1Store.annotations ∧
    ¬ UniqueMilestonePairs ((addMilestone c1Store (DayOrDate.day 3) 0 "b").2.1.annotations) := by
  decide

/-- C1 (amended): the store operation `addAnnotation` has no occupancy check
and appends unconditionally; the suppression lives in the hover-affordance
creation path, which consults `getAnnotation` first — that guarded path
leaves the store unchanged at an occupied intersection and preserves the
at-most-one-milestone-per-`(date, row)` invariant. -/
theorem hoverCreateMilestone_spec (st : TimelineData) (day row : ℤ)
    (h : UniqueMilestonePairs st.annotations) :
    ((getMilestone st (DayOrDate.day day) row).isSome →
      hoverCreateMilestone st day row = st) ∧
    UniqueMilestonePairs (hoverCreateMilestone st day row).annotations := by
  constructor
  · intro hs
    unfold hoverCreateMilestone
    simp [hs]
  · unfold hoverCreateMilestone
    split
    case isTrue => exact h
    case isFalse hn =>
      have hnone : getMilestone st (DayOrDate.day day) row = none :=
        Option.not_isSome_iff_eq_none.mp hn
      unfold getMilestone at hnone
      rw [List.find?_eq_none] at hnone
      unfold addMilestone UniqueMilestonePairs
      rw [List.pairwise_append]
      refine ⟨h, List.pairwise_singleton _ _, ?_⟩
      intro a ha a' ha'
      rcases List.mem_singleton.mp ha' with rfl
      intro ⟨hd, hr⟩
      exact absurd (by simpa using And.intro hd hr) (by simpa using hnone a ha)

/-- Witness for C1's amended theorem at the occupied pair of `c1Store`. -/
theorem hoverCreateMilestone_spec_witness :
    UniqueMilestonePairs c1Store.annotations ∧
    (hoverCreateMilestone c1Store 3 0 = c1Store ∧
     UniqueMilestonePairs (hoverCreateMilestone c1Store 3 0).annotations) :=
  ⟨by decide,
   (hoverCreateMilestone_spec c1Store 3 0 (by decide)).1 (by decide),
   (hoverCreateMilestone_spec c1Store 3 0 (by decide)).2⟩

/-- C2 counterexample: on a store whose blocks are sorted, `reorderItems`
(moving the later block to index 0) leaves the blocks unsorted and fires the
change notification zero times, not once. -/
theorem reorderItems_breaks_sort_and_skips_notify :
    SortedByStart c2Store.items ∧
    ¬ SortedByStart ((reorderItems c2Store 2 0).1.items) ∧
    (reorderItems c2Store 2 0).2 = 0 := by
  decide

/-- C2 (amended): `addBlock` re-sorts and notifies once; `addAnnotation`
leaves the blocks untouched and notifies once; `removeItem` and `updateItem`
preserve sortedness and notify once whenever the id is found (and zero times
otherwise); `reorderItems` neither re-sorts nor notifies. -/
theorem itemStore_mutations_sort_notify :
    (∀ st a dur lab row, SortedByStart ((addBlock st a dur lab row).2.1.items) ∧
      (addBlock st a dur lab row).2.2 = 1) ∧
    (∀ st a row tx, (addMilestone st a row tx).2.1.items = st.items ∧
      (addMilestone st a row tx).2.2 = 1) ∧
    (∀ st id, SortedByStart st.items →
      SortedByStart ((removeItem st id).2.1.items) ∧
      ((removeItem st id).1.isSome → (removeItem st id).2.2 = 1)) ∧
    (∀ st id u, SortedByStart st.items →
      SortedByStart ((updateItem st id u).2.1.items) ∧
      ((updateItem st id u).1.isSome → (updateItem st id u).2.2 = 1)) ∧
    (∀ st id t, (reorderItems st id t).2 = 0) := by
  refine ⟨?_, ?_, ?_, ?_, ?_⟩
  · intro st a dur lab row
    exact ⟨sortTimelineItems_sorted _, rfl⟩
  · intro st a row tx
    exact ⟨rfl, rfl⟩
  · intro st id h
    simp only [removeItem]
    cases hf : st.items.find? (fun i => i.id = id) with
    | some b => exact ⟨removeFirstBlock_sorted id h, fun _ => rfl⟩
    | none => exact ⟨h, fun hs => by simp at hs⟩
  · intro st id u h
    simp only [updateItem]
    cases hf : st.items.find? (fun i => i.id = id) with
    | some b => exact ⟨sortTimelineItems_sorted _, fun _ => rfl⟩
    | none =>
      cases hg : st.annotations.find? (fun a => a.id = id) with
      | some a => exact ⟨h, fun _ => rfl⟩
      | none => exact ⟨h, fun hs => by simp at hs⟩
  · intro st id t
    simp only [reorderItems]
    cases hf : st.items.findIdx? (fun i => i.id = id) with
    | some idx =>
      cases hg : st.items[idx]? with
      | some it => simp [hg]
      | none => simp [hg]
    | none => rfl

/-- Witness for C2's amended theorem on the concrete sorted store. -/
theorem itemStore_mutations_sort_notify_witness :
    SortedByStart c2Store.items ∧
    (SortedByStart ((removeItem c2Store 1).2.1.items) ∧
     SortedByStart ((updateItem c2Store 2 noUpdates).2.1.items) ∧
     (reorderItems c2Store 1 0).2 = 0) :=
  ⟨by decide,
   (itemStore_mutations_sort_notify.2.2.1 c2Store 1 (by decide)).1,
   (itemStore_mutations_sort_notify.2.2.2.1 c2Store 2 noUpdates (by decide)).1,
   itemStore_mutations_sort_notify.2.2.2.2 c2Store 1 0⟩

/-! ## Lookup lemmas for in-place updates -/

theorem map_id_replaceFirstBlock {l : List Block} {id : ℕ} {b' : Block} (hb' : b'.id = id) :
    (replaceFirstBlock id b' l).map Block.id = l.map Block.id := by
  induction l with
  | nil => rfl
  | cons z zs ih =>
    unfold replaceFirstBlock
    split
    case isTrue hz => simp [hb', hz]
    case isFalse hz => simp [ih]

theorem mem_replaceFirstBlock_of_mem {l : List Block} {id : ℕ} {b' y : Block}
    (hy : y ∈ l) (hyid : y.id = id) : b' ∈ replaceFirstBlock id b' l := by
  induction l with
  | nil => simp at hy
  | cons z zs ih =>
    unfold replaceFirstBlock
    split
    case isTrue hz => exact List.mem_cons_self _ _
    case isFalse hz =>
      rcases List.mem_cons.mp hy with rfl | hy2
      · exact absurd hyid hz
      · exact List.mem_cons_of_mem z (ih hy2)

theorem mem_replaceFirstBlock_of_ne {l : List Block} {id : ℕ} {b' x : Block}
    (hx : x ∈ l) (hne : x.id ≠ id) : x ∈ replaceFirstBlock id b' l := by
  induction l with
  | nil => simp at hx
  | cons z zs ih =>
    unfold replaceFirstBlock
    split
    case isTrue hz =>
      rcases List.mem_cons.mp hx with rfl | hx2
      · exact absurd hz hne
      · exact List.mem_cons_of_mem b' hx2
    case isFalse hz =>
      rcases List.mem_cons.mp hx with rfl | hx2
      · exact List.mem_cons_self _ _
      · exact List.mem_cons_of_mem z (ih hx2)

theorem mem_of_mem_replaceFirstBlock_ne {l : List Block} {id : ℕ} {b' x : Block}
    (hb' : b'.id = id) (hx : x ∈ replaceFirstBlock id b' l) (hne : x.id ≠ id) : x ∈ l := by
  induction l with
  | nil => simp [replaceFirstBlock] at hx
  | cons z zs ih =>
    unfold replaceFirstBlock at hx
    split at hx
    case isTrue hz =>
      rcases List.mem_cons.mp hx with rfl | hx2
      · exact absurd hb' hne
      · exact List.mem_cons_of_mem z hx2
    case isFalse hz =>
      rcases List.mem_cons.mp hx with rfl | hx2
      · exact List.mem_cons_self _ _
      · exact List.mem_cons_of_mem z (ih hx2)

theorem eq_of_mem_replaceFirstBlock {l : List Block} {id : ℕ} {b' : Block}
    (hnd : (l.map Block.id).Nodup) {x : Block}
    (hx : x ∈ replaceFirstBlock id b' l) (hxid : x.id = id) : x = b' := by
  induction l with
  | nil => simp [replaceFirstBlock] at hx
  | cons z zs ih =>
    rw [List.map_cons, List.nodup_cons] at hnd
    unfold replaceFirstBlock at hx
    split at hx
    case isTrue hz =>
      rcases List.mem_cons.mp hx with rfl | hx2
      · rfl
      · exfalso
        have : x.id ∈ zs.map Block.id := List.mem_map_of_mem _ hx2
        rw [hxid, ← hz] at this
        exact hnd.1 this
    case isFalse hz =>
      rcases List.mem_cons.mp hx with rfl | hx2
      · exact absurd hxid hz
      · exact ih hnd.2 hx2

theorem find?_id_eq_some_iff {l : List Block} (hnd : (l.map Block.id).Nodup)
    {j : ℕ} {x : Block} :
    l.find? (fun i => i.id = j) = some x ↔ x ∈ l ∧ x.id = j := by
  induction l with
  | nil => simp
  | cons z zs ih =>
    rw [List.map_cons, List.nodup_cons] at hnd
    by_cases hz : z.id = j
    · rw [List.find?_cons_of_pos _ (by simp [hz])]
      constructor
      · intro h
        rcases Option.some.inj h with rfl
        exact ⟨List.mem_cons_self _ _, hz⟩
      · rintro ⟨hx, hxid⟩
        rcases List.mem_cons.mp hx with rfl | hx2
        · rfl
        · exfalso
          have : x.id ∈ zs.map Block.id := List.mem_map_of_mem _ hx2
          rw [hxid, ← hz] at this
          exact hnd.1 this
    · rw [List.find?_cons_of_neg _ (by simp [hz]), ih hnd.2]
      constructor
      · rintro ⟨hx, hxid⟩
        exact ⟨List.mem_cons_of_mem z hx, hxid⟩
      · rintro ⟨hx, hxid⟩
        rcases List.mem_cons.mp hx with rfl | hx2
        · exact absurd hxid hz
        · exact ⟨hx2, hxid⟩

theorem eq_of_mem_replaceFirstMilestone {l : List Milestone} {id : ℕ} {a' : Milestone}
    (hnd : (l.map Milestone.id).Nodup) {x : Milestone}
    (hx : x ∈ replaceFirstMilestone id a' l) (hxid : x.id = id) : x = a' := by
  induction l with
  | nil => simp [replaceFirstMilestone] at hx
  | cons z zs ih =>
    rw [List.map_cons, List.nodup_cons] at hnd
    unfold replaceFirstMilestone at hx
    split at hx
    case isTrue hz =>
      rcases List.mem_cons.mp hx with rfl | hx2
      · rfl
      · exfalso
        have : x.id ∈ zs.map Milestone.id := List.mem_map_of_mem _ hx2
        rw [hxid, ← hz] at this
        exact hnd.1 this
    case isFalse hz =>
      rcases List.mem_cons.mp hx with rfl | hx2
      · exact absurd hxid hz
      · exact ih hnd.2 hx2

/-! ## Branch lemmas for `updateItem` -/

theorem updateItem_found (st : TimelineData) {id : ℕ} {b : Block} (u : Updates)
    (hf : st.items.find? (fun i => i.id = id) = some b) :
    updateItem st id u =
      (some (Sum.inl (applyUpdatesBlock st b u)),
       { st with
         items := sortTimelineItems (replaceFirstBlock id (applyUpdatesBlock st b u) st.items),
         lastBadgeValue := match u.badge with
           | some v => v
           | none => st.lastBadgeValue }, 1) := by
  unfold updateItem
  rw [hf]

theorem updateItem_mile_found (st : TimelineData) {id : ℕ} {a : Milestone} (u : Updates)
    (h1 : st.items.find? (fun i => i.id = id) = none)
    (h2 : st.annotations.find? (fun m => m.id = id) = some a) :
    updateItem st id u =
      (some (Sum.inr (applyUpdatesMilestone st a u)),
       { st with
         annotations := replaceFirstMilestone id (applyUpdatesMilestone st a u) st.annotations },
       1) := by
  unfold updateItem
  rw [h1, h2]

theorem updateItem_unknown (st : TimelineData) (id : ℕ) (u : Updates)
    (h1 : st.items.find? (fun i => i.id = id) = none)
    (h2 : st.annotations.find? (fun m => m.id = id) = none) :
    updateItem st id u = (none, st, 0) := by
  unfold updateItem
  rw [h1, h2]

/-- C9: an operation given an id not present in the store is a no-op
returning a null result with the store unchanged and no notification fired
(the embedding is total, mirroring that the source never throws here), and a
keyboard nudge (`moveSelectedItem`) requesting a negative relative day or
negative row clamps both at 0 — the moved entity ends at or after the start
date and at a non-negative row. -/
theorem unknownId_noop_and_negative_clamped :
    (∀ st id, st.items.find? (fun i => i.id = id) = none →
      removeItem st id = (none, st, 0)) ∧
    (∀ st id u, st.items.find? (fun i => i.id = id) = none →
      st.annotations.find? (fun m => m.id = id) = none →
      updateItem st id u = (none, st, 0)) ∧
    (∀ st id, st.annotations.find? (fun m => m.id = id) = none →
      removeMilestone st id = (none, st, 0)) ∧
    (∀ st selId dd dr b, (st.items.map Block.id).Nodup →
      st.items.find? (fun i => i.id = selId) = some b →
      ∀ X, X ∈ (moveSelectedBlock st selId dd dr).items → X.id = selId →
        0 ≤ X.row ∧ st.startDate ≤ X.startDate) ∧
    (∀ st selId dd dr a, (st.annotations.map Milestone.id).Nodup →
      st.items.find? (fun i => i.id = selId) = none →
      st.annotations.find? (fun m => m.id = selId) = some a →
      ∀ Y, Y ∈ (moveSelectedMilestone st selId dd dr).annotations → Y.id = selId →
        0 ≤ Y.row ∧ st.startDate ≤ Y.date) := by
  refine ⟨?_, ?_, ?_, ?_, ?_⟩
  · intro st id h
    unfold removeItem
    rw [h]
  · intro st id u h1 h2
    exact updateItem_unknown st id u h1 h2
  · intro st id h
    unfold removeMilestone
    rw [h]
  · intro st selId dd dr b hnd hf X hX hXid
    have hbid : b.id = selId := by
      have := List.find?_some hf
      simpa using this
    have hget : getItem st selId = some b := by
      rw [getItem, hf]; rfl
    rw [moveSelectedBlock, hget] at hX
    replace hX : X ∈ ((updateItem st b.id
      { noUpdates with
        startDate := some (getDateFromRelativeDay st
          (max 0 (getRelativeDayFromDate st b.startDate + dd))),
        row := some (max 0 (b.row + dr)) }).2.1).items := hX
    rw [hbid, updateItem_found st _ hf] at hX
    replace hX : X ∈ sortTimelineItems (replaceFirstBlock selId
      (applyUpdatesBlock st b
        { noUpdates with
          startDate := some (getDateFromRelativeDay st
            (max 0 (getRelativeDayFromDate st b.startDate + dd))),
          row := some (max 0 (b.row + dr)) }) st.items) := hX
    have hXb := eq_of_mem_replaceFirstBlock hnd (mem_sortTimelineItems.mp hX) hXid
    subst hXb
    exact ⟨le_max_left 0 _, le_add_of_nonneg_right (le_max_left 0 _)⟩
  · intro st selId dd dr a hnd h1 h2 Y hY hYid
    have haid : a.id = selId := by
      have := List.find?_some h2
      simpa using this
    rw [moveSelectedMilestone, h2] at hY
    replace hY : Y ∈ ((updateItem st a.id
      { noUpdates with
        date := some (getDateFromRelativeDay st
          (max 0 (getRelativeDayFromDate st a.date + dd))),
        row := some (max 0 (a.row + dr)) }).2.1).annotations := hY
    rw [haid, updateItem_mile_found st _ h1 h2] at hY
    replace hY : Y ∈ replaceFirstMilestone selId
      (applyUpdatesMilestone st a
        { noUpdates with
          date := some (getDateFromRelativeDay st
            (max 0 (getRelativeDayFromDate st a.date + dd))),
          row := some (max 0 (a.row + dr)) }) st.annotations := hY
    have hYa := eq_of_mem_replaceFirstMilestone hnd hY hYid
    subst hYa
    exact ⟨le_max_left 0 _, le_add_of_nonneg_right (le_max_left 0 _)⟩

/-- Witness for C9 on `c9Store`: unknown id 99 is a no-op for all three
operations, and −100-day/−100-row nudges of the block and the milestone
clamp at the start date and row 0. -/
theorem unknownId_noop_and_negative_clamped_witness :
    removeItem c9Store 99 = (none, c9Store, 0) ∧
    updateItem c9Store 99 noUpdates = (none, c9Store, 0) ∧
    removeMilestone c9Store 99 = (none, c9Store, 0) ∧
    (0 ≤ c9Moved.row ∧ c9Store.startDate ≤ c9Moved.startDate) ∧
    (0 ≤ c9MovedM.row ∧ c9Store.startDate ≤ c9MovedM.date) :=
  ⟨unknownId_noop_and_negative_clamped.1 c9Store 99 (by decide),
   unknownId_noop_and_negative_clamped.2.1 c9Store 99 noUpdates (by decide) (by decide),
   unknownId_noop_and_negative_clamped.2.2.1 c9Store 99 (by decide),
   unknownId_noop_and_negative_clamped.2.2.2.1 c9Store 1 (-100) (-100) c9Block
     (by decide) (by decide) c9Moved (by decide) (by decide),
   unknownId_noop_and_negative_clamped.2.2.2.2 c9Store 5 (-100) (-100) c9Mile
     (by decide) (by decide) (by decide) c9MovedM (by decide) (by decide)⟩

/-- C4 counterexample: loading the parseable-but-malformed document
`c4BadDoc` (the parse of an empty JSON object) reports failure, yet the
store is NOT what it was before the load: `this.data = parsed` ran before
the validation threw. -/
theorem fromJSON_malformed_clobbers_store :
    (fromJSON c4Store 19723 (some c4BadDoc)).1 = false ∧
    (fromJSON c4Store 19723 (some c4BadDoc)).2 ≠ c4Store := by
  decide

/-- C4 (amended): only an unparseable document (`JSON.parse` throws before
`this.data` is assigned) leaves the store untouched on failure; a document
that parses but is malformed also reports failure, but the store is left
holding the bad document — here literally `c4BadDoc` — rather than its
previous state. -/
theorem fromJSON_failure_semantics :
    (∀ st today, fromJSON st today none = (false, st)) ∧
    (fromJSON c4Store 19723 (some c4BadDoc)).2.data = c4BadDoc :=
  ⟨fun _ _ => rfl, by decide⟩

/-! ## Cumulative-width lemmas for the coordinate walk -/

theorem jabs_of_nonneg {x : ℚ} (h : 0 ≤ x) : jabs x = x := by
  unfold jabs
  rw [if_neg (not_lt.mpr h)]

theorem getDayWidth_ge_twenty (start day : ℤ) : (20 : ℚ) ≤ getDayWidth start day := by
  unfold getDayWidth
  split <;> norm_num

theorem cumWidth_zero (start : ℤ) : cumWidth start 0 = 0 := by
  simp [cumWidth]

theorem cumWidth_succ (start : ℤ) (d : ℕ) :
    cumWidth start (d + 1) = cumWidth start d + getDayWidth start d :=
  Finset.sum_range_succ _ _

theorem cumWidth_gap (start : ℤ) : ∀ (k a : ℕ),
    20 * (k : ℚ) ≤ cumWidth start (a + k) - cumWidth start a := by
  intro k
  induction k with
  | zero => intro a; simp
  | succ n ih =>
    intro a
    have h1 := ih a
    have h2 := getDayWidth_ge_twenty start (a + n)
    rw [show a + (n + 1) = (a + n) + 1 from rfl, cumWidth_succ]
    push_cast
    push_cast at h1
    linarith

theorem cumWidth_lt (start : ℤ) {a b : ℕ} (h : a < b) :
    cumWidth start a + 20 ≤ cumWidth start b := by
  have hg := cumWidth_gap start (b - a) a
  rw [Nat.add_sub_cancel' h.le] at hg
  have h1 : (1 : ℚ) ≤ ((b - a : ℕ) : ℚ) := by
    have : 1 ≤ b - a := by omega
    exact_mod_cast this
  linarith

/-- One iteration of the `pixelToDay` walk, with the pixel sitting exactly
at day `d`'s left boundary and the walk currently at day `day`. -/
theorem pixelToDayGo_step (start : ℤ) (f day d : ℕ) (h : day ≤ d) :
    pixelToDayGo start (cumWidth start d) f (cumWidth start day) day =
      if d = day then (day, false)
      else if d = day + 1 then (day + 1, false)
      else
        match f with
        | 0 => (day + 1, true)
        | f' + 1 => pixelToDayGo start (cumWidth start d) f' (cumWidth start (day + 1)) (day + 1) := by
  have hsucc : cumWidth start day + getDayWidth start (day : ℤ) = cumWidth start (day + 1) :=
    (cumWidth_succ start day).symm
  rcases eq_or_lt_of_le h with rfl | hlt
  · unfold pixelToDayGo
    rw [if_pos (by rw [sub_self]; simp [jabs]), if_pos rfl]
  · have h2 : cumWidth start day + 20 ≤ cumWidth start d := cumWidth_lt start hlt
    have hc1 : ¬(jabs (cumWidth start d - cumWidth start day) < 1 / 1000) := by
      rw [jabs_of_nonneg (by linarith)]
      exact not_lt.mpr (by linarith)
    have hne0 : ¬(d = day) := by omega
    rcases eq_or_lt_of_le (Nat.succ_le_of_lt hlt) with heq | hlt2
    · have heq' : d = day + 1 := by omega
      subst heq'
      unfold pixelToDayGo
      rw [if_neg hc1, hsucc]
      rw [if_pos (by rw [sub_self]; simp [jabs]), if_neg hne0, if_pos rfl]
    · have h3 : cumWidth start (day + 1) + 20 ≤ cumWidth start d := cumWidth_lt start hlt2
      have hc2 : ¬(jabs (cumWidth start d - cumWidth start (day + 1)) < 1 / 1000) := by
        rw [jabs_of_nonneg (by linarith)]
        exact not_lt.mpr (by linarith)
      have hc3 : ¬(cumWidth start day < cumWidth start d ∧
          cumWidth start d < cumWidth start (day + 1)) := by
        rintro ⟨-, hcon⟩
        linarith
      have hne1 : ¬(d = day + 1) := by omega
      conv_lhs => unfold pixelToDayGo
      simp only [hsucc]
      rw [if_neg hc1, if_neg hc2, if_neg hc3, if_neg hne0, if_neg hne1]

/-- Characterization of the full walk at day `d`'s left boundary: within the
fuel budget it returns `d` without warning; beyond it, it warns and returns
the capped day counter. -/
theorem pixelToDayGo_char (start : ℤ) : ∀ (f day d : ℕ), day ≤ d →
    pixelToDayGo start (cumWidth start d) f (cumWidth start day) day =
      if d ≤ day + f + 1 then (d, false) else (day + f + 1, true) := by
  intro f
  induction f with
  | zero =>
    intro day d h
    rw [pixelToDayGo_step start 0 day d h]
    by_cases h0 : d = day
    · rw [if_pos h0, if_pos (by omega)]
      simp [h0]
    · by_cases h1 : d = day + 1
      · rw [if_neg h0, if_pos h1, if_pos (by omega)]
        simp [h1]
      · rw [if_neg h0, if_neg h1, if_neg (by omega)]
  | succ f ih =>
    intro day d h
    rw [pixelToDayGo_step start (f + 1) day d h]
    by_cases h0 : d = day
    · rw [if_pos h0, if_pos (by omega)]
      simp [h0]
    · by_cases h1 : d = day + 1
      · rw [if_neg h0, if_pos h1, if_pos (by omega)]
        simp [h1]
      · rw [if_neg h0, if_neg h1]
        show pixelToDayGo start (cumWidth start d) f (cumWidth start (day + 1)) (day + 1) =
          if d ≤ day + (f + 1) + 1 then (d, false) else (day + (f + 1) + 1, true)
        rw [ih (day + 1) d (by omega)]
        by_cases h2 : d ≤ day + 1 + f + 1
        · rw [if_pos h2, if_pos (by omega)]
        · rw [if_neg h2, if_neg (by omega)]
          simp only [Prod.mk.injEq]
          exact ⟨by omega, trivial⟩

/-- The walk's day result never exceeds `day + fuel + 1`. -/
theorem pixelToDayGo_fst_le (start : ℤ) (u : ℚ) : ∀ (f : ℕ) (acc : ℚ) (day : ℕ),
    (pixelToDayGo start u f acc day).1 ≤ day + f + 1 := by
  intro f
  induction f with
  | zero =>
    intro acc day
    unfold pixelToDayGo
    by_cases hA : jabs (u - acc) < 1 / 1000
    · rw [if_pos hA]
      show day ≤ day + 0 + 1
      omega
    · rw [if_neg hA]
      by_cases hB : jabs (u - (acc + getDayWidth start (day : ℤ))) < 1 / 1000
      · rw [if_pos hB]
      · rw [if_neg hB]
        by_cases hC : acc < u ∧ u < acc + getDayWidth start (day : ℤ)
        · rw [if_pos hC]
          show day ≤ day + 0 + 1
          omega
        · rw [if_neg hC]
  | succ f ih =>
    intro acc day
    unfold pixelToDayGo
    by_cases hA : jabs (u - acc) < 1 / 1000
    · rw [if_pos hA]
      show day ≤ day + (f + 1) + 1
      omega
    · rw [if_neg hA]
      by_cases hB : jabs (u - (acc + getDayWidth start (day : ℤ))) < 1 / 1000
      · rw [if_pos hB]
        show day + 1 ≤ day + (f + 1) + 1
        omega
      · rw [if_neg hB]
        by_cases hC : acc < u ∧ u < acc + getDayWidth start (day : ℤ)
        · rw [if_pos hC]
          show day ≤ day + (f + 1) + 1
          omega
        · rw [if_neg hC]
          show (pixelToDayGo start u f (acc + getDayWidth start (day : ℤ)) (day + 1)).1 ≤
            day + (f + 1) + 1
          have := ih (acc + getDayWidth start (day : ℤ)) (day + 1)
          omega

/-- The walk at the pixel `dayToPixel 10002` (day 10002's left boundary)
trips the safety cap: the warning fires and the capped day 10001 is
returned. -/
theorem pixelToDayFull_at_10002 :
    pixelToDayFull 19723 1 (dayToPixel 19723 1 ((10002 : ℕ) : ℤ)) = (10001, true) := by
  unfold pixelToDayFull dayToPixel
  simp only [Int.toNat_natCast]
  have hdiv : (∑ i in Finset.range 10002, getDayWidth 19723 (i : ℤ)) * 1 / 1 =
      cumWidth 19723 10002 := by
    rw [mul_one, div_one]
    rfl
  rw [hdiv, show (0 : ℚ) = cumWidth 19723 0 from (cumWidth_zero _).symm,
    pixelToDayGo_char 19723 10000 0 10002 (by omega), if_neg (by omega)]

/-- Day-of-week residue underlying `isWeekend`, shifted to a base day. -/
theorem isWeekend_shift (start s i : ℤ) :
    isWeekend start (s + i) =
      (((start + s + 4) % 7 + i) % 7 == 0 || ((start + s + 4) % 7 + i) % 7 == 6) := by
  unfold isWeekend
  have h1 : start + (s + i) + 4 = start + s + 4 + i := by ring
  rw [h1]
  have h2 : (start + s + 4 + i) % 7 = ((start + s + 4) % 7 + i) % 7 := by omega
  rw [h2]

/-- Existence of the day-of-week residue of the base day. -/
theorem exists_dow (start s : ℤ) : ∃ r : ℤ, 0 ≤ r ∧ r < 7 ∧
    ∀ i : ℤ, isWeekend start (s + i) = ((r + i) % 7 == 0 || (r + i) % 7 == 6) :=
  ⟨(start + s + 4) % 7, by omega, by omega, fun i => isWeekend_shift start s i⟩

/-- Any 7 consecutive day columns sum to 440 unzoomed pixels
(5 × 80 + 2 × 20): every week window contains exactly two weekend days. -/
theorem weekWidth_sum (start s : ℤ) :
    (∑ i in Finset.range 7, getDayWidth start (s + (i : ℤ))) = 440 := by
  obtain ⟨r, hr0, hr7, hrw⟩ := exists_dow start s
  have hw : ∀ i : ℤ, getDayWidth start (s + i) =
      if ((r + i) % 7 == 0 || (r + i) % 7 == 6) = true then (20 : ℚ) else 80 := by
    intro i
    unfold getDayWidth
    rw [hrw i]
  simp only [Finset.sum_range_succ, Finset.sum_range_zero, hw]
  push_cast
  interval_cases r <;> decide

/-- Any 7 consecutive days contain exactly 2 weekend days. -/
theorem weekendCount (start s : ℤ) :
    (∑ i in Finset.range 7, (if isWeekend start (s + (i : ℤ)) then (1 : ℕ) else 0)) = 2 := by
  obtain ⟨r, hr0, hr7, hrw⟩ := exists_dow start s
  simp only [Finset.sum_range_succ, Finset.sum_range_zero, hrw]
  push_cast
  interval_cases r <;> decide

/-- C5 (amended): for every integer `0 ≤ d ≤ 10001` and every zoom factor
`> 0` (the source clamps zoom to `[0.25, 3]`),
`pixelToDay (dayToPixel d) = d`.  Since `dayToPixel d` is exactly the shared
boundary of days `d − 1` and `d`, this is also the left-closed boundary
rule: a coordinate on a day boundary resolves to the day that starts there.
Beyond the 10000-iteration safety cap the round trip fails (see the
counterexample), so the claim's "every d ≥ 0" is cut down to `d ≤ 10001`. -/
theorem pixelToDay_dayToPixel_roundTrip (start : ℤ) (zoom : ℚ) (d : ℕ)
    (hz : 0 < zoom) (hd : d ≤ 10001) :
    pixelToDay start zoom (dayToPixel start zoom (d : ℤ)) = d := by
  unfold pixelToDay pixelToDayFull dayToPixel
  simp only [Int.toNat_natCast]
  have hdiv : (∑ i in Finset.range d, getDayWidth start (i : ℤ)) * zoom / zoom =
      cumWidth start d := by
    rw [mul_div_assoc, div_self (ne_of_gt hz), mul_one]
    rfl
  rw [hdiv, show (0 : ℚ) = cumWidth start 0 from (cumWidth_zero _).symm,
    pixelToDayGo_char start 10000 0 d (Nat.zero_le d), if_pos (by omega)]

/-- Witness for C5's amended round trip at `startDate` 2024-01-01, zoom 1,
day 5. -/
theorem pixelToDay_dayToPixel_roundTrip_witness :
    (0 : ℚ) < 1 ∧ (5 : ℕ) ≤ 10001 ∧
    pixelToDay 19723 1 (dayToPixel 19723 1 ((5 : ℕ) : ℤ)) = 5 :=
  ⟨by norm_num, by norm_num,
   pixelToDay_dayToPixel_roundTrip 19723 1 5 (by norm_num) (by norm_num)⟩

/-- Beyond the fuel budget the walk's returned day is the constant capped
value 10001, whatever the true day. -/
theorem pixelToDay_beyond_cap (start : ℤ) (zoom : ℚ) (d : ℕ)
    (hz : 0 < zoom) (hd : 10002 ≤ d) :
    pixelToDay start zoom (dayToPixel start zoom (d : ℤ)) = 10001 := by
  unfold pixelToDay pixelToDayFull dayToPixel
  simp only [Int.toNat_natCast]
  rw [show (∑ i in Finset.range d, getDayWidth start (i : ℤ)) * zoom / zoom =
        cumWidth start d by rw [mul_div_assoc, div_self (ne_of_gt hz), mul_one]; rfl,
    show (0 : ℚ) = cumWidth start 0 from (cumWidth_zero _).symm,
    pixelToDayGo_char start 10000 0 d (by omega), if_neg (by omega)]

/-- C5 counterexample: at day 10002 the round trip fails — the walk's
safety cap returns 10001 for the pixel that starts day 10002. -/
theorem roundTrip_fails_beyond_cap :
    pixelToDay 19723 1 (dayToPixel 19723 1 ((10002 : ℕ) : ℤ)) ≠ 10002 := by
  have h : pixelToDay 19723 1 (dayToPixel 19723 1 ((10002 : ℕ) : ℤ)) = 10001 :=
    pixelToDay_beyond_cap 19723 1 10002 (by norm_num) (by norm_num)
  omega

/-- C8 (amended): the cumulative walk is capped — `pixelToDay` never walks
past day 10001, so it terminates on every input — but exceeding the cap is
NOT fatal: the source logs `console.warn` (the Boolean of
`pixelToDayFull`) and returns the capped day to the caller as an ordinary
value. -/
theorem pixelToDay_capped_terminates :
    (∀ (start : ℤ) (zoom pixel : ℚ), pixelToDay start zoom pixel ≤ 10001) ∧
    pixelToDayFull 19723 1 (dayToPixel 19723 1 ((10002 : ℕ) : ℤ)) = (10001, true) := by
  constructor
  · intro start zoom pixel
    have h := pixelToDayGo_fst_le start (pixel / zoom) 10000 0 0
    unfold pixelToDay pixelToDayFull
    omega
  · exact pixelToDayFull_at_10002

/-- C8 counterexample: for the pixel that starts day 10002 the function
returns the in-band day 10001 to its caller (a wrong answer as a normal
value) instead of treating the cap overflow as a fatal error. -/
theorem pixelToDay_cap_wrong_inband_answer :
    pixelToDay 19723 1 (dayToPixel 19723 1 ((10002 : ℕ) : ℤ)) = 10001 ∧
    (10001 : ℕ) ≠ 10002 := by
  constructor
  · exact pixelToDay_beyond_cap 19723 1 10002 (by norm_num) (by norm_num)
  · omega

/-- C10 (amended): every 7-day span covers exactly two narrow weekend
columns and, provided day 0 of the timeline is a weekday (so that
`dayToPixel(1)` is a standard 80-px column), its summed width is strictly
less than 7 uniform columns.  When the start date falls on a weekend the
inequality reverses (see the counterexample), which forces the added
hypothesis. -/
theorem dayToPixelForDuration_week_lt (start : ℤ) (zoom : ℚ) (s : ℤ)
    (hz : 0 < zoom) (hw0 : isWeekend start 0 = false) :
    (∑ i in Finset.range 7, (if isWeekend start (s + (i : ℤ)) then (1 : ℕ) else 0)) = 2 ∧
    dayToPixelForDuration start zoom s 7 < 7 * dayToPixel start zoom 1 := by
  refine ⟨weekendCount start s, ?_⟩
  unfold dayToPixelForDuration dayToPixel
  rw [show ((7 : ℤ)).toNat = 7 from rfl, show ((1 : ℤ)).toNat = 1 from rfl,
    weekWidth_sum start s, Finset.sum_range_one]
  have h80 : getDayWidth start ((0 : ℕ) : ℤ) = 80 := by
    unfold getDayWidth
    rw [show ((0 : ℕ) : ℤ) = (0 : ℤ) by norm_num, hw0]
    simp
  rw [h80]
  calc (440 : ℚ) * zoom < (7 * 80) * zoom :=
        mul_lt_mul_of_pos_right (by norm_num) hz
    _ = 7 * (80 * zoom) := by ring

/-- Witness for C10's amended theorem: 2024-01-01 (a Monday) start, zoom 1,
span starting at day 0. -/
theorem dayToPixelForDuration_week_lt_witness :
    (0 : ℚ) < 1 ∧ isWeekend 19723 0 = false ∧
    ((∑ i in Finset.range 7, (if isWeekend 19723 ((0 : ℤ) + (i : ℤ)) then (1 : ℕ) else 0)) = 2 ∧
     dayToPixelForDuration 19723 1 0 7 < 7 * dayToPixel 19723 1 1) :=
  ⟨by norm_num, by decide, dayToPixelForDuration_week_lt 19723 1 0 (by norm_num) (by decide)⟩

/-- C10 counterexample: with the timeline starting 2024-01-06 (a Saturday),
day 0 is a narrow column, so a 7-day span (440 px) is strictly WIDER than
`7 × dayToPixel(1)` (140 px) — the claimed inequality fails. -/
theorem weekSpan_not_lt_on_weekend_start :
    isWeekend 19728 0 = true ∧
    ¬ (dayToPixelForDuration 19728 1 0 7 < 7 * dayToPixel 19728 1 1) := by
  constructor
  · decide
  · decide

/-! ## Resize lemmas -/

/-- Two resize calculations that agree on the clamped `newWidth` agree on
everything. -/
theorem resizeCalc_ext (st : TimelineData) (zoom : ℚ) (b : Block) (dx dx' : ℚ)
    (h : max (dayToPixelForDuration st.startDate zoom (getRelativeDayFromDate st b.startDate) 1)
          (dayToPixelForDuration st.startDate zoom (getRelativeDayFromDate st b.startDate)
            b.duration + dx)
       = max (dayToPixelForDuration st.startDate zoom (getRelativeDayFromDate st b.startDate) 1)
          (dayToPixelForDuration st.startDate zoom (getRelativeDayFromDate st b.startDate)
            b.duration + dx')) :
    resizeCalc st zoom b dx = resizeCalc st zoom b dx' := by
  simp only [resizeCalc]
  rw [h]

/-- C7: every completed resize commits a duration of at least 1 day, for
every pointer travel `deltaX` including arbitrarily large negative ones;
the shift applied to pushed blocks is exactly the committed duration change
(`deltaDays = snappedDuration − initialDuration`); and pointer travel at or
beyond the 1-day width floor is absorbed — the whole gesture outcome equals
the outcome at the floor itself, so the excess does not leak into the
shift. -/
theorem resize_duration_floor (st : TimelineData) (zoom : ℚ) (b : Block) (deltaX : ℚ) :
    1 ≤ (resizeCalc st zoom b deltaX).snappedDuration ∧
    (resizeCalc st zoom b deltaX).deltaDays =
      (resizeCalc st zoom b deltaX).snappedDuration - b.duration ∧
    ((resizeCalc st zoom b deltaX).initialWidth + deltaX ≤
        (resizeCalc st zoom b deltaX).minWidth →
      resizeGesture st zoom b deltaX =
        resizeGesture st zoom b
          ((resizeCalc st zoom b deltaX).minWidth -
            (resizeCalc st zoom b deltaX).initialWidth)) := by
  refine ⟨le_max_left 1 _, rfl, ?_⟩
  intro h
  have hiW : (resizeCalc st zoom b deltaX).initialWidth =
      dayToPixelForDuration st.startDate zoom (getRelativeDayFromDate st b.startDate)
        b.duration := rfl
  have hmW : (resizeCalc st zoom b deltaX).minWidth =
      dayToPixelForDuration st.startDate zoom (getRelativeDayFromDate st b.startDate) 1 := rfl
  have h' : dayToPixelForDuration st.startDate zoom (getRelativeDayFromDate st b.startDate)
        b.duration + deltaX ≤
      dayToPixelForDuration st.startDate zoom (getRelativeDayFromDate st b.startDate) 1 := by
    rw [← hiW, ← hmW]
    exact h
  have hc : resizeCalc st zoom b deltaX =
      resizeCalc st zoom b
        ((resizeCalc st zoom b deltaX).minWidth -
          (resizeCalc st zoom b deltaX).initialWidth) := by
    apply resizeCalc_ext
    rw [hiW, hmW,
      show dayToPixelForDuration st.startDate zoom (getRelativeDayFromDate st b.startDate)
            b.duration +
          (dayToPixelForDuration st.startDate zoom (getRelativeDayFromDate st b.startDate) 1 -
            dayToPixelForDuration st.startDate zoom (getRelativeDayFromDate st b.startDate)
              b.duration) =
          dayToPixelForDuration st.startDate zoom (getRelativeDayFromDate st b.startDate) 1
        from by ring,
      max_self, max_eq_left h']
  unfold resizeGesture
  conv_lhs => rw [hc]

/-- Witness for C7 at Scenario A's store with a −100000 px pointer travel:
the committed duration still comes out ≥ 1 and the gesture equals the
floor gesture. -/
theorem resize_duration_floor_witness :
    ((resizeCalc scenarioAStore 1 scenarioADesign (-100000)).initialWidth + (-100000) ≤
      (resizeCalc scenarioAStore 1 scenarioADesign (-100000)).minWidth) ∧
    1 ≤ (resizeCalc scenarioAStore 1 scenarioADesign (-100000)).snappedDuration ∧
    resizeGesture scenarioAStore 1 scenarioADesign (-100000) =
      resizeGesture scenarioAStore 1 scenarioADesign
        ((resizeCalc scenarioAStore 1 scenarioADesign (-100000)).minWidth -
          (resizeCalc scenarioAStore 1 scenarioADesign (-100000)).initialWidth) :=
  ⟨by decide,
   (resize_duration_floor scenarioAStore 1 scenarioADesign (-100000)).1,
   (resize_duration_floor scenarioAStore 1 scenarioADesign (-100000)).2.2 (by decide)⟩

/-! ## Push-commit lemmas -/

theorem option_eq_of_some_iff {α : Type} {o₁ o₂ : Option α}
    (h : ∀ a, o₁ = some a ↔ o₂ = some a) : o₁ = o₂ := by
  cases o₁ with
  | some a => exact ((h a).mp rfl).symm
  | none =>
    cases o₂ with
    | some a => exact absurd ((h a).mpr rfl) (by simp)
    | none => rfl

theorem find?_id_of_found {st : TimelineData} {i : ℕ} {b : Block}
    (hf : st.items.find? (fun x => x.id = i) = some b) : b.id = i := by
  simpa using List.find?_some hf

theorem applyUpdates_duration_only (st : TimelineData) (b : Block) (v : ℤ) :
    applyUpdatesBlock st b { noUpdates with duration := some v } =
      { b with duration := v } := rfl

theorem applyUpdates_startDate_only (st : TimelineData) (b : Block) (w : ℤ) :
    applyUpdatesBlock st b { noUpdates with startDate := some w } =
      { b with startDate := w } := rfl

theorem updateItem_startDate_inv (st : TimelineData) (i : ℕ) (u : Updates) :
    (updateItem st i u).2.1.startDate = st.startDate := by
  unfold updateItem
  cases h1 : st.items.find? (fun x => x.id = i) with
  | some b => rfl
  | none =>
    cases h2 : st.annotations.find? (fun a => a.id = i) with
    | some a => rfl
    | none => rfl

theorem nodup_ids_after_update {st : TimelineData} {i : ℕ} {b : Block} (u : Updates)
    (hf : st.items.find? (fun x => x.id = i) = some b)
    (hnd : (st.items.map Block.id).Nodup) :
    (((updateItem st i u).2.1).items.map Block.id).Nodup := by
  rw [updateItem_found st u hf]
  show ((sortTimelineItems (replaceFirstBlock i (applyUpdatesBlock st b u)
    st.items)).map Block.id).Nodup
  have hbid : (applyUpdatesBlock st b u).id = i := find?_id_of_found (b := b) hf
  have hperm := (sortTimelineItems_perm
    (replaceFirstBlock i (applyUpdatesBlock st b u) st.items)).map Block.id
  rw [hperm.nodup_iff, map_id_replaceFirstBlock hbid]
  exact hnd

theorem update_lookup_self {st : TimelineData} {i : ℕ} {b : Block} (u : Updates)
    (hf : st.items.find? (fun x => x.id = i) = some b)
    (hnd : (st.items.map Block.id).Nodup) :
    ((updateItem st i u).2.1).items.find? (fun x => x.id = i) =
      some (applyUpdatesBlock st b u) := by
  have hnd2 := nodup_ids_after_update u hf hnd
  rw [updateItem_found st u hf] at hnd2 ⊢
  show (sortTimelineItems (replaceFirstBlock i (applyUpdatesBlock st b u)
    st.items)).find? (fun x => x.id = i) = some (applyUpdatesBlock st b u)
  have hbid : b.id = i := find?_id_of_found hf
  have hbmem : b ∈ st.items := List.mem_of_find?_eq_some hf
  rw [find?_id_eq_some_iff hnd2]
  exact ⟨mem_sortTimelineItems.mpr (mem_replaceFirstBlock_of_mem hbmem hbid),
    find?_id_of_found (b := b) hf⟩

theorem update_lookup_other {st : TimelineData} {i : ℕ} {b : Block} (u : Updates)
    (hf : st.items.find? (fun x => x.id = i) = some b)
    (hnd : (st.items.map Block.id).Nodup) {j : ℕ} (hji : j ≠ i) :
    ((updateItem st i u).2.1).items.find? (fun x => x.id = j) =
      st.items.find? (fun x => x.id = j) := by
  have hnd2 := nodup_ids_after_update u hf hnd
  rw [updateItem_found st u hf] at hnd2 ⊢
  show (sortTimelineItems (replaceFirstBlock i (applyUpdatesBlock st b u)
    st.items)).find? (fun x => x.id = j) = st.items.find? (fun x => x.id = j)
  have hbid : (applyUpdatesBlock st b u).id = i := find?_id_of_found (b := b) hf
  apply option_eq_of_some_iff
  intro y
  rw [find?_id_eq_some_iff hnd2, find?_id_eq_some_iff hnd]
  constructor
  · rintro ⟨hy, hyid⟩
    refine ⟨mem_of_mem_replaceFirstBlock_ne hbid (mem_sortTimelineItems.mp hy) ?_, hyid⟩
    rw [hyid]
    exact hji
  · rintro ⟨hy, hyid⟩
    refine ⟨mem_sortTimelineItems.mpr (mem_replaceFirstBlock_of_ne hy ?_), hyid⟩
    rw [hyid]
    exact hji

theorem eq_of_mem_of_same_id {l : List Block} (hnd : (l.map Block.id).Nodup)
    {x y : Block} (hx : x ∈ l) (hy : y ∈ l) (h : x.id = y.id) : x = y := by
  have h1 := (find?_id_eq_some_iff hnd (j := y.id)).mpr ⟨hx, h⟩
  have h2 := (find?_id_eq_some_iff hnd (j := y.id)).mpr ⟨hy, rfl⟩
  exact Option.some.inj (h1.symm.trans h2)

/-- Characterization of the `blocksToPush.forEach` commit loop: the store's
start date and id set are preserved, ids not in the pushed list keep their
lookup, and each pushed id `(j, r)` ends at date `D + (r + Δ)`. -/
theorem pushCommit_char (Δ D : ℤ) :
    ∀ (L : List (ℕ × ℤ)) (s : TimelineData),
    s.startDate = D →
    (s.items.map Block.id).Nodup →
    (L.map Prod.fst).Nodup →
    (∀ p ∈ L, ∃ x, s.items.find? (fun i => i.id = p.1) = some x) →
    (pushCommit Δ L s).startDate = D ∧
    ((pushCommit Δ L s).items.map Block.id).Nodup ∧
    (∀ j, (∀ r, (j, r) ∉ L) →
      (pushCommit Δ L s).items.find? (fun i => i.id = j) =
        s.items.find? (fun i => i.id = j)) ∧
    (∀ j r x, (j, r) ∈ L → s.items.find? (fun i => i.id = j) = some x →
      (pushCommit Δ L s).items.find? (fun i => i.id = j) =
        some { x with startDate := D + (r + Δ) }) := by
  intro L
  induction L with
  | nil =>
    intro s hD hnd hLnd hpres
    exact ⟨hD, hnd, fun j _ => rfl,
      fun j r x hmem => absurd hmem (List.not_mem_nil _)⟩
  | cons p L ih =>
    intro s hD hnd hLnd hpres
    obtain ⟨x₀, hx₀⟩ := hpres p (List.mem_cons_self _ _)
    have hstep : pushCommit Δ (p :: L) s =
        pushCommit Δ L ((updateItem s p.1
          { noUpdates with
            startDate := some (getDateFromRelativeDay s (p.2 + Δ)) }).2.1) := rfl
    have h1D : ((updateItem s p.1
        { noUpdates with
          startDate := some (getDateFromRelativeDay s (p.2 + Δ)) }).2.1).startDate = D := by
      rw [updateItem_startDate_inv]
      exact hD
    have h1nd := nodup_ids_after_update
      { noUpdates with startDate := some (getDateFromRelativeDay s (p.2 + Δ)) } hx₀ hnd
    have hLhead : p.1 ∉ L.map Prod.fst := (List.nodup_cons.mp hLnd).1
    have hLtail : (L.map Prod.fst).Nodup := (List.nodup_cons.mp hLnd).2
    have h1pres : ∀ q ∈ L, ∃ x, ((updateItem s p.1
        { noUpdates with
          startDate := some (getDateFromRelativeDay s (p.2 + Δ)) }).2.1).items.find?
        (fun i => i.id = q.1) = some x := by
      intro q hq
      obtain ⟨x, hx⟩ := hpres q (List.mem_cons_of_mem p hq)
      have hne : q.1 ≠ p.1 := fun hcon =>
        hLhead (hcon ▸ List.mem_map_of_mem Prod.fst hq)
      exact ⟨x, by rw [update_lookup_other _ hx₀ hnd hne]; exact hx⟩
    obtain ⟨hD', hnd', huntouched, hupdated⟩ := ih
      ((updateItem s p.1
        { noUpdates with
          startDate := some (getDateFromRelativeDay s (p.2 + Δ)) }).2.1)
      h1D h1nd hLtail h1pres
    refine ⟨?_, ?_, ?_, ?_⟩
    · rw [hstep]
      exact hD'
    · rw [hstep]
      exact hnd'
    · intro j hj
      have hjp : j ≠ p.1 := fun hcon =>
        hj p.2 (by rw [hcon]; exact List.mem_cons_self _ _)
      have hjL : ∀ r, (j, r) ∉ L := fun r hr => hj r (List.mem_cons_of_mem p hr)
      rw [hstep, huntouched j hjL, update_lookup_other _ hx₀ hnd hjp]
    · intro j r x hmem hfind
      rcases List.mem_cons.mp hmem with heq | hmemL
      · have hj : j = p.1 := congrArg Prod.fst heq
        have hr : r = p.2 := congrArg Prod.snd heq
        subst hj
        subst hr
        have hx : x = x₀ := Option.some.inj (hfind.symm.trans hx₀)
        subst hx
        have hl1 : ((updateItem s p.1
            { noUpdates with
              startDate := some (getDateFromRelativeDay s (p.2 + Δ)) }).2.1).items.find?
            (fun i => i.id = p.1) = some { x with startDate := D + (p.2 + Δ) } := by
          rw [update_lookup_self _ hx₀ hnd, applyUpdates_startDate_only]
          have : getDateFromRelativeDay s (p.2 + Δ) = D + (p.2 + Δ) := by
            unfold getDateFromRelativeDay
            rw [hD]
          rw [this]
        have hnotin : ∀ r', (p.1, r') ∉ L := by
          intro r' hr'
          have hm : (p.1, r').1 ∈ L.map Prod.fst := List.mem_map_of_mem Prod.fst hr'
          exact hLhead hm
        rw [hstep, huntouched p.1 hnotin]
        exact hl1
      · have hjp : j ≠ p.1 := fun hcon =>
          hLhead (hcon ▸ List.mem_map_of_mem Prod.fst hmemL)
        have hfind1 : ((updateItem s p.1
            { noUpdates with
              startDate := some (getDateFromRelativeDay s (p.2 + Δ)) }).2.1).items.find?
            (fun i => i.id = j) = some x := by
          rw [update_lookup_other _ hx₀ hnd hjp]
          exact hfind
        rw [hstep]
        exact hupdated j r x hmemL hfind1

theorem mem_findBlocksToRight {st : TimelineData} {b : Block} {pr : ℕ × ℤ} :
    pr ∈ findBlocksToRight st b ↔
      ∃ X, X ∈ st.items ∧ X.id ≠ b.id ∧ X.row = b.row ∧
        getRelativeDayFromDate st b.startDate + b.duration ≤
          getRelativeDayFromDate st X.startDate ∧
        pr = (X.id, getRelativeDayFromDate st X.startDate) := by
  unfold findBlocksToRight
  simp only [List.mem_map, List.mem_filter, decide_eq_true_eq]
  constructor
  · rintro ⟨X, ⟨hm, hne, hrow, hedge⟩, hpr⟩
    exact ⟨X, hm, hne, hrow, hedge, hpr.symm⟩
  · rintro ⟨X, hm, hne, hrow, hedge, hpr⟩
    exact ⟨X, ⟨hm, hne, hrow, hedge⟩, hpr.symm⟩

theorem fst_nodup_findBlocksToRight {st : TimelineData} {b : Block}
    (hnd : (st.items.map Block.id).Nodup) :
    ((findBlocksToRight st b).map Prod.fst).Nodup := by
  unfold findBlocksToRight
  rw [List.map_map]
  show ((st.items.filter _).map Block.id).Nodup
  exact List.Nodup.sublist (List.Sublist.map _ (List.filter_sublist _)) hnd

/-- C3: a resize gesture on block `b` with pointer travel `deltaX` commits
the snapped duration to `b`, and shifts exactly those other blocks `X` in
`b`'s row whose pre-resize relative start day is at or after `b`'s
pre-resize right edge `E_old = relDay(b) + duration(b)` — the set captured
once at gesture start — by `+Δ` days, `Δ` being the committed duration
change (`deltaDays`); every other block is left untouched (so durations of
pushed blocks are unchanged, the whole record but the start date being
preserved). -/
theorem resizePush_characterization (st : TimelineData) (zoom : ℚ) (b : Block)
    (deltaX : ℚ)
    (hnd : (st.items.map Block.id).Nodup)
    (hfb : st.items.find? (fun i => i.id = b.id) = some b) :
    (resizeGesture st zoom b deltaX).items.find? (fun i => i.id = b.id) =
      some { b with duration := (resizeCalc st zoom b deltaX).snappedDuration } ∧
    (∀ X, X ∈ st.items → X.id ≠ b.id →
      ((X.row = b.row ∧
          getRelativeDayFromDate st b.startDate + b.duration ≤
            getRelativeDayFromDate st X.startDate) →
        (resizeGesture st zoom b deltaX).items.find? (fun i => i.id = X.id) =
          some { X with
            startDate := X.startDate + (resizeCalc st zoom b deltaX).deltaDays }) ∧
      (¬(X.row = b.row ∧
          getRelativeDayFromDate st b.startDate + b.duration ≤
            getRelativeDayFromDate st X.startDate) →
        (resizeGesture st zoom b deltaX).items.find? (fun i => i.id = X.id) = some X)) := by
  have hgest : resizeGesture st zoom b deltaX =
      pushCommit (resizeCalc st zoom b deltaX).deltaDays (findBlocksToRight st b)
        ((updateItem st b.id
          { noUpdates with
            duration := some (resizeCalc st zoom b deltaX).snappedDuration }).2.1) := rfl
  have h1D : ((updateItem st b.id
      { noUpdates with
        duration := some (resizeCalc st zoom b deltaX).snappedDuration }).2.1).startDate =
      st.startDate := updateItem_startDate_inv st b.id _
  have h1nd := nodup_ids_after_update
    { noUpdates with duration := some (resizeCalc st zoom b deltaX).snappedDuration }
    hfb hnd
  have hRnd := fst_nodup_findBlocksToRight (b := b) hnd
  have hRpres : ∀ p ∈ findBlocksToRight st b, ∃ x, ((updateItem st b.id
      { noUpdates with
        duration := some (resizeCalc st zoom b deltaX).snappedDuration }).2.1).items.find?
      (fun i => i.id = p.1) = some x := by
    intro p hp
    obtain ⟨X, hXmem, hXne, hXrow, hXedge, hpr⟩ := mem_findBlocksToRight.mp hp
    subst hpr
    refine ⟨X, ?_⟩
    rw [update_lookup_other _ hfb hnd hXne]
    exact (find?_id_eq_some_iff hnd).mpr ⟨hXmem, rfl⟩
  obtain ⟨hD', hnd', huntouched, hupdated⟩ :=
    pushCommit_char (resizeCalc st zoom b deltaX).deltaDays st.startDate
      (findBlocksToRight st b)
      ((updateItem st b.id
        { noUpdates with
          duration := some (resizeCalc st zoom b deltaX).snappedDuration }).2.1)
      h1D h1nd hRnd hRpres
  constructor
  · have hbnotin : ∀ r, (b.id, r) ∉ findBlocksToRight st b := by
      intro r hr
      obtain ⟨X, hXmem, hXne, _, _, hpr⟩ := mem_findBlocksToRight.mp hr
      exact hXne (congrArg Prod.fst hpr).symm
    rw [hgest, huntouched b.id hbnotin, update_lookup_self _ hfb hnd,
      applyUpdates_duration_only]
  · intro X hXmem hXne
    constructor
    · intro hcond
      have hmemR : (X.id, getRelativeDayFromDate st X.startDate) ∈ findBlocksToRight st b :=
        mem_findBlocksToRight.mpr ⟨X, hXmem, hXne, hcond.1, hcond.2, rfl⟩
      have hXfind1 : ((updateItem st b.id
          { noUpdates with
            duration := some (resizeCalc st zoom b deltaX).snappedDuration }).2.1).items.find?
          (fun i => i.id = X.id) = some X := by
        rw [update_lookup_other _ hfb hnd hXne]
        exact (find?_id_eq_some_iff hnd).mpr ⟨hXmem, rfl⟩
      rw [hgest, hupdated X.id (getRelativeDayFromDate st X.startDate) X hmemR hXfind1]
      have harith : st.startDate +
          (getRelativeDayFromDate st X.startDate +
            (resizeCalc st zoom b deltaX).deltaDays) =
          X.startDate + (resizeCalc st zoom b deltaX).deltaDays := by
        rw [getRelativeDayFromDate_eq]
        ring
      rw [harith]
    · intro hncond
      have hnotin : ∀ r, (X.id, r) ∉ findBlocksToRight st b := by
        intro r hr
        obtain ⟨Y, hYmem, hYne, hYrow, hYedge, hpr⟩ := mem_findBlocksToRight.mp hr
        have hXY : X = Y := eq_of_mem_of_same_id hnd hXmem hYmem (congrArg Prod.fst hpr)
        exact hncond ⟨hXY ▸ hYrow, hXY ▸ hYedge⟩
      rw [hgest, huntouched X.id hnotin, update_lookup_other _ hfb hnd hXne]
      exact (find?_id_eq_some_iff hnd).mpr ⟨hXmem, rfl⟩

/-- Witness for C3: Scenario A.  Resizing "Design" (day 0, duration 5) by
+120 px commits duration 8 (Δ = +3) and pushes "Build" from 2024-01-06 to
2024-01-09, its duration staying 3. -/
theorem resizePush_characterization_witness :
    scenarioABuild ∈ scenarioAStore.items ∧
    scenarioABuild.id ≠ scenarioADesign.id ∧
    (scenarioABuild.row = scenarioADesign.row ∧
      getRelativeDayFromDate scenarioAStore scenarioADesign.startDate +
          scenarioADesign.duration ≤
        getRelativeDayFromDate scenarioAStore scenarioABuild.startDate) ∧
    (resizeGesture scenarioAStore 1 scenarioADesign 120).items.find?
        (fun i => i.id = scenarioABuild.id) =
      some { scenarioABuild with
        startDate := scenarioABuild.startDate +
          (resizeCalc scenarioAStore 1 scenarioADesign 120).deltaDays } ∧
    { scenarioABuild with
        startDate := scenarioABuild.startDate +
          (resizeCalc scenarioAStore 1 scenarioADesign 120).deltaDays } =
      { id := 2, startDate := daysFromCivil 2024 1 9, duration := 3,
        label := "Build", row := 0, badge := "XD" } ∧
    (resizeCalc scenarioAStore 1 scenarioADesign 120).snappedDuration = 8 :=
  ⟨by decide, by decide, by decide,
   ((resizePush_characterization scenarioAStore 1 scenarioADesign 120
        (by decide) (by decide)).2
      scenarioABuild (by decide) (by decide)).1 (by decide),
   by decide, by decide⟩

end Timelines
